import Mathlib

/-!
Verification of the mandark CLI edit pipeline (src/app.ts and the pipeline
components it drives).

The only source file of the repository is `src/app.ts`; it is embedded below
as a pure function from an environment (command-line arguments, model table,
API-key state, user answers, provider stream) to the list of externally
visible effects the run performs, in order.  The pipeline components that
`app.ts` imports (stream normalizer, applier, history store) are not present
in the source tree; where a claim depends on them they are modelled from the
specification, with a doc comment saying so.
-/

/-! ## Data model: models table (models.ts, fields used by app.ts) -/

/-- An entry of the `models` list (models.ts).  Only the fields read by
`app.ts` are embedded; the per-million-token cost fields feed a display-only
cost estimate and are omitted. -/
structure Model where
  name : String
  nickName : String
  provider : String
  contextWindow : Int
  outputLength : Int
deriving DecidableEq, Repr

/-! ## String primitives

The JavaScript string primitives the source uses (`toLowerCase`,
`startsWith`, splitting file text into lines) are rendered as structural
recursions so that every theorem can be evaluated on concrete inputs. -/

/-- ASCII lower-casing of one character (JS `toLowerCase` on the inputs the
program compares against are ASCII keywords). -/
def lowerChar (c : Char) : Char :=
  if 'A' ≤ c ∧ c ≤ 'Z' then Char.ofNat (c.toNat + 32) else c

/-- JS `String.prototype.toLowerCase`. -/
def lowerString (s : String) : String := String.mk (s.data.map lowerChar)

/-- JS `String.prototype.startsWith`. -/
def strStartsWith (s pre : String) : Bool := pre.data.isPrefixOf s.data

/-- Split file text into its lines at newline characters (JS
`split("\n")`). -/
def splitLines (s : String) : List String :=
  s.data.foldr
    (fun c acc =>
      if c = '\n' then "" :: acc
      else
        match acc with
        | [] => [String.singleton c]
        | h :: t => (String.singleton c ++ h) :: t)
    [""]

/-! ## checkContextWindowOverflow (app.ts lines 39-51) -/

/-- Return shape of `checkContextWindowOverflow`: `overflow` plus the two
optional overflow fields.  The JavaScript percentage is a float; it is
embedded as the exact rational value of the same expression. -/
structure OverflowCheck where
  overflow : Bool
  overflowTokens : Option Int := none
  overflowPercentage : Option ℚ := none
deriving DecidableEq, Repr

/-- Embedding of `checkContextWindowOverflow` (app.ts lines 39-51). -/
def checkContextWindowOverflow (inputTokens : Int) (selectedModel : Model) :
    OverflowCheck :=
  let availableTokens := selectedModel.contextWindow - selectedModel.outputLength
  if inputTokens > availableTokens then
    let overflowTokens := inputTokens - availableTokens
    let overflowPercentage := ((overflowTokens : ℚ) / (availableTokens : ℚ)) * 100
    { overflow := true
      overflowTokens := some overflowTokens
      overflowPercentage := some overflowPercentage }
  else
    { overflow := false }

/-! ## Model selection (app.ts lines 65-71) -/

/-- Embedding of app.ts lines 65-71: `inputs.pop()` takes the last element as
a candidate model nickname; if it matches no entry of `models` a truthy
nickname is pushed back onto the file list and the first model is used. -/
def selectModel (models : List Model) (inputs : List String) :
    Option Model × List String :=
  match inputs.getLast? with
  | none => (models.head?, inputs)
  | some modelNickname =>
    let rest := inputs.dropLast
    match models.find? (fun m => m.nickName == modelNickname) with
    | some m => (some m, rest)
    | none =>
      (models.head?, if modelNickname ≠ "" then rest ++ [modelNickname] else rest)

/-! ## Effect traces for main (app.ts lines 53-199) -/

/-- A verified edit-packet stream: the value returned by `verifyEditStream`,
carrying the raw provider stream it re-checks (as an abstract handle) and the
provider used for verification. -/
structure VerifiedStream where
  source : Nat
  verifier : String
deriving DecidableEq, Repr

/-- Embedding of the call `verifyEditStream(editPacketStream, provider)`:
wraps the raw stream together with the verifying provider. -/
def verifyEditStream (source : Nat) (verifier : String) : VerifiedStream :=
  ⟨source, verifier⟩

/-- Externally visible effects of one run of `main`, in program order. -/
inductive Effect where
  /-- `revertLastChanges()` (app.ts line 57). -/
  | revertCall : Effect
  /-- console.error "Problem: No files or folders to process" (line 74). -/
  | errorNoFiles : Effect
  /-- `process.exit(n)`. -/
  | exitCode : Nat → Effect
  /-- `processFiles(inputs, includeImports)` (line 78): reads the files. -/
  | processFilesCall : List String → Bool → Effect
  /-- `fs.writeFileSync("compiled-code.txt", content)` (line 81). -/
  | writeCompiled : String → Effect
  /-- `getAndSetAPIKey(provider)` inside `checkAndSetAPIKey` (line 33). -/
  | promptAPIKey : String → Effect
  /-- the `input({...})` task prompt (line 137). -/
  | promptTask : Effect
  /-- streaming an `askAI` answer to stdout (lines 145-153). -/
  | askStream : String → Effect
  /-- a `getAIEditsFrom*` provider call producing the raw packet stream. -/
  | editModelCall : String → Nat → Effect
  /-- `new EditProcessor()` (line 182). -/
  | buildEditProcessor : Effect
  /-- `verifyEditStream(stream, provider)` (lines 183-188). -/
  | verifyCall : Nat → String → Effect
  /-- `editProcessor.processEditStream(stream)` (line 189): applies to disk. -/
  | applyCall : VerifiedStream → Effect
  /-- console.error "Unsupported provider: ..." (line 178). -/
  | errorUnsupportedProvider : Effect
  /-- JavaScript TypeError reaching `main().catch` (models list empty). -/
  | crash : Effect
deriving DecidableEq, Repr

/-- Everything main reads from outside: argv (already `slice(2)`), the models
table, the preferred verifier model's provider (models.ts), which providers
currently have an API key stored, the results of the external calls
(`processFiles`, `countTokens`), the user's interactive answers, and an
abstract handle for the provider's raw edit-packet stream. -/
structure Env where
  argv : List String
  models : List Model
  preferredVerifierProvider : String
  apiKeys : String → Bool
  processedCode : String
  processedCount : Nat
  estimatedTokens : Int
  continueAnyway : Bool
  task : String
  rawStream : Nat

/-- app.ts line 63: drop flag arguments and empty strings
(`!input.startsWith("-") && !!input`). -/
def filteredInputs (argv : List String) : List String :=
  argv.filter (fun i => !(strStartsWith i "-") && !(i == ""))

/-- Embedding of `checkAndSetAPIKey` (app.ts lines 28-37): returns the
effects performed and the key state afterwards (`getAndSetAPIKey` stores the
key for the provider when it was absent). -/
def checkAndSetAPIKey (apiKeys : String → Bool) (provider : String) :
    List Effect × (String → Bool) :=
  if apiKeys provider then ([], apiKeys)
  else ([Effect.promptAPIKey provider],
        fun q => if q = provider then true else apiKeys q)

/-- The model chosen by lines 65-71 for a given environment. -/
def selectedOf (env : Env) : Option Model :=
  (selectModel env.models (filteredInputs env.argv)).1

/-- The remaining file/folder arguments after lines 63-71. -/
def filesOf (env : Env) : List String :=
  (selectModel env.models (filteredInputs env.argv)).2

/-- API-key state after `checkAndSetAPIKey(selectedModel)` (line 96) ran. -/
def keysAfterSetup (env : Env) : String → Bool :=
  match selectedOf env with
  | some sel => (checkAndSetAPIKey env.apiKeys sel.provider).2
  | none => env.apiKeys

/-- The provider handed to `verifyEditStream` (app.ts lines 184-187): the
preferred verifier model's provider when a key for it is present, otherwise
the selected model's provider. -/
def verifierProviderOf (env : Env) (sel : Model) : String :=
  if keysAfterSetup env env.preferredVerifierProvider then
    env.preferredVerifierProvider
  else sel.provider

/-- The effects of the task branch (app.ts lines 143-190): an `ask` task
streams an answer; otherwise the provider dispatch (lines 156-180) produces
the raw edit stream, which is verified (183) and then applied (189). -/
def taskBranch (env : Env) (sel : Model) : List Effect :=
  if strStartsWith (lowerString env.task) "ask " then
    [Effect.askStream sel.provider]
  else if sel.provider = "anthropic" ∨ sel.provider = "openai"
      ∨ sel.provider = "fireworks" then
    [Effect.editModelCall sel.provider env.rawStream,
     Effect.buildEditProcessor,
     Effect.verifyCall env.rawStream (verifierProviderOf env sel),
     Effect.applyCall (verifyEditStream env.rawStream (verifierProviderOf env sel))]
  else
    [Effect.errorUnsupportedProvider, Effect.exitCode 1]

/-- Effects of app.ts lines 88-196 once a model has been selected (or not:
an empty models table makes line 93 throw).  The key-setup prompt (line 96)
runs first, then the overflow gate (lines 102-123) may exit, then the task
prompt and the task branch. -/
def afterSelection (env : Env) (files : List String)
    (includeImports : Bool) : Option Model → List Effect
  | none => [Effect.processFilesCall files includeImports, Effect.crash]
  | some sel =>
    if (checkContextWindowOverflow env.estimatedTokens sel).overflow
        && !env.continueAnyway then
      Effect.processFilesCall files includeImports ::
        ((checkAndSetAPIKey env.apiKeys sel.provider).1 ++ [Effect.exitCode 0])
    else
      Effect.processFilesCall files includeImports ::
        ((checkAndSetAPIKey env.apiKeys sel.provider).1
          ++ [Effect.promptTask] ++ taskBranch env sel)

/-- Embedding of `main` (app.ts lines 53-197) as the ordered list of effects
one run performs, given the environment. -/
def mainRun (env : Env) : List Effect :=
  if env.argv.head? = some "revert" then
    [Effect.revertCall]
  else if filesOf env = [] then
    [Effect.errorNoFiles, Effect.exitCode 1]
  else if env.argv.contains "-p" then
    [Effect.processFilesCall (filesOf env) (env.argv.contains "-a"),
     Effect.writeCompiled env.processedCode, Effect.exitCode 0]
  else
    afterSelection env (filesOf env) (env.argv.contains "-a") (selectedOf env)

/-! ## Edit packets and the applier / history store

The applier (edit-processor.ts) and the history store (edit-history.ts) are
imported by app.ts but their source is not in the tree; they are modelled
from the specification below. -/

/-- A file system: path to full file text (absent when no such file). -/
def FS : Type := String → Option String

/-- The three edit operations of the Edit Packet Model (spec section 3). -/
inductive EditOp where
  | replaceLines : EditOp
  | insertAfterLine : EditOp
  | deleteLines : EditOp
deriving DecidableEq, Repr

/-- Modelled from the spec: one atomic edit instruction (EditPacket, spec
section 3) with target file, operation, inclusive one-based line anchors
(`endLine` absent for insertAfterLine) and replacement lines. -/
structure EditPacket where
  filePath : String
  op : EditOp
  startLine : Nat
  endLine : Option Nat
  newContent : List String
deriving DecidableEq, Repr

/-- Modelled from the spec (section 4.4): resolve one packet against the
lines of its target file.  Anchors are one-based and inclusive; a missing
`endLine` defaults to `startLine`. -/
def applyOp (lines : List String) (p : EditPacket) : List String :=
  match p.op with
  | EditOp.replaceLines =>
      lines.take (p.startLine - 1) ++ p.newContent
        ++ lines.drop (p.endLine.getD p.startLine)
  | EditOp.insertAfterLine =>
      lines.take p.startLine ++ p.newContent ++ lines.drop p.startLine
  | EditOp.deleteLines =>
      lines.take (p.startLine - 1) ++ lines.drop (p.endLine.getD p.startLine)

/-- State of one apply run: the file system, the snapshots captured for the
current history entry (path paired with original full text), and the
applied/failed packet counters of the run summary. -/
structure ApplyState where
  fs : FS
  hist : List (String × String)
  applied : Nat
  failed : Nat

/-- Modelled from the spec (section 4.4): apply one packet.  Before the
first packet touching a file is applied, that file's full original text is
captured into the current history entry; a packet whose target file cannot
be read is an ApplyError, counted as failed and skipped. -/
def applyPacket (st : ApplyState) (p : EditPacket) : ApplyState :=
  match st.fs p.filePath with
  | none => { st with failed := st.failed + 1 }
  | some content =>
    let hist :=
      if (st.hist.lookup p.filePath).isSome then st.hist
      else st.hist ++ [(p.filePath, content)]
    let newText := String.intercalate "\n" (applyOp (splitLines content) p)
    { fs := fun q => if q = p.filePath then some newText else st.fs q
      hist := hist
      applied := st.applied + 1
      failed := st.failed }

/-- Insert one packet into a list kept in descending start-line order. -/
def insertDesc (p : EditPacket) : List EditPacket → List EditPacket
  | [] => [p]
  | q :: qs =>
    if Nat.ble q.startLine p.startLine then p :: q :: qs
    else q :: insertDesc p qs

/-- Sort packets into descending start-line order (insertion sort). -/
def sortDesc : List EditPacket → List EditPacket
  | [] => []
  | p :: ps => insertDesc p (sortDesc ps)

/-- The distinct file paths of the stream in order of first appearance. -/
def pathsInOrder (seen : List String) : List EditPacket → List String
  | [] => []
  | p :: ps =>
    if seen.contains p.filePath then pathsInOrder seen ps
    else p.filePath :: pathsInOrder (p.filePath :: seen) ps

/-- Modelled from the spec (section 4.4): all packets for a given file are
processed in descending order of start line; files are taken in order of
first appearance in the stream. -/
def orderForApply (ps : List EditPacket) : List EditPacket :=
  (pathsInOrder [] ps).flatMap
    (fun path => sortDesc (ps.filter (fun q => q.filePath == path)))

/-- Modelled from the spec (sections 4.4-4.5): one apply run over a verified
packet stream, starting from an empty history entry. -/
def applyRun (fs : FS) (ps : List EditPacket) : ApplyState :=
  (orderForApply ps).foldl applyPacket { fs := fs, hist := [], applied := 0, failed := 0 }

/-- Modelled from the spec (section 4.5): overwrite each affected file with
its stored snapshot; files outside the entry are untouched. -/
def revertFiles (fs : FS) (hist : List (String × String)) : FS :=
  fun q =>
    match hist.lookup q with
    | some content => some content
    | none => fs q

/-- Modelled from the spec (section 3): one past apply run, a timestamp plus
the mapping from affected file path to its full pre-edit text. -/
structure HistoryEntry where
  timestamp : Nat
  affectedFiles : List (String × String)
deriving DecidableEq, Repr

/-- Outcome of `revertLastChanges`: either a reported no-op (nothing
recorded) or a revert of the recorded files. -/
inductive RevertResult where
  | noOpReported : RevertResult
  | reverted : Nat → RevertResult
deriving DecidableEq, Repr

/-- Modelled from the spec (sections 4.5, 6): `revertLastChanges`
(edit-history.ts).  With no recorded run it reports a no-op and leaves the
file system untouched; otherwise it restores every affected file from its
snapshot. -/
def revertLastChanges (slot : Option HistoryEntry) (fs : FS) :
    RevertResult × FS :=
  match slot with
  | none => (RevertResult.noOpReported, fs)
  | some h => (RevertResult.reverted h.affectedFiles.length,
               revertFiles fs h.affectedFiles)

/-- History soundness invariant of an apply run started on `fs0`: every
captured snapshot is the original text, and a file with no snapshot is still
at its original text. -/
def HistOk (fs0 : FS) (st : ApplyState) : Prop :=
  (∀ q c, st.hist.lookup q = some c → fs0 q = some c)
  ∧ (∀ q, st.hist.lookup q = none → st.fs q = fs0 q)

/-! ## Packet Stream Normalizer

The normalizer (inside the provider adapters) is imported by app.ts but its
source is not in the tree; it is modelled from the specification
(section 4.2): a resumable scanner over an incremental character stream
that retains trailing unconsumed text across fragments and emits a record
exactly when its terminating marker has been seen.  The provider-specific
framing is abstracted into a dedicated record-terminator character. -/

/-- The record-terminating marker of the abstracted wire format. -/
def recordEnd : Char := '\x1e'

/-- Modelled from the spec (section 4.2): consume one character; a
terminator completes the pending record, anything else extends it. -/
def normStep (acc : List (List Char) × List Char) (c : Char) :
    List (List Char) × List Char :=
  if c = recordEnd then (acc.1 ++ [acc.2], []) else (acc.1, acc.2 ++ [c])

/-- Feed one fragment to the normalizer given the retained pending text:
returns the records completed by this fragment and the new pending text. -/
def feedFragment (pending : List Char) (frag : List Char) :
    List (List Char) × List Char :=
  frag.foldl normStep ([], pending)

/-- Run the normalizer over a sequence of incoming fragments, carrying the
pending text across fragment boundaries (spec section 4.2). -/
def runNormalizer (frags : List (List Char)) : List (List Char) × List Char :=
  frags.foldl
    (fun acc frag =>
      let out := feedFragment acc.2 frag
      (acc.1 ++ out.1, out.2))
    ([], [])

/-- Numeric line anchor: all digits, at least one. -/
def parseAnchor (cs : List Char) : Option Nat :=
  if cs ≠ [] ∧ cs.all Char.isDigit then
    some (cs.foldl (fun n c => n * 10 + (c.toNat - 48)) 0)
  else none

/-- Operation keyword of the abstracted record format. -/
def parseOpChar (c : Char) : Option EditOp :=
  if c = 'r' then some EditOp.replaceLines
  else if c = 'i' then some EditOp.insertAfterLine
  else if c = 'd' then some EditOp.deleteLines
  else none

/-- Modelled from the spec (section 4.2): parse one complete record into an
operation and line anchor; an unknown operation keyword or unparseable
anchor makes the record malformed. -/
def parseRecord (r : List Char) : Option (EditOp × Nat) :=
  match r with
  | [] => none
  | c :: rest =>
    match parseOpChar c with
    | none => none
    | some op => (parseAnchor rest).map (fun a => (op, a))

/-- The complete records of a whole (unsplit) stream. -/
def completeRecords (s : List Char) : List (List Char) :=
  (feedFragment [] s).1

/-- Modelled from the spec (section 4.2): the normalizer's output over a
fragment sequence: emitted packets (malformed records skipped) and the
count of skipped records. -/
def normalizeStream (frags : List (List Char)) :
    List (EditOp × Nat) × Nat :=
  let out := runNormalizer frags
  (out.1.filterMap parseRecord,
   (out.1.filter (fun r => (parseRecord r).isNone)).length)

/-! ## Concrete instances used to instantiate the theorems -/

/-- A concrete models-table entry used to instantiate theorems. -/
def sonnetModel : Model :=
  { name := "claude-3-5-sonnet-20240620", nickName := "sonnet35",
    provider := "anthropic", contextWindow := 200000, outputLength := 8192 }

/-- A run that reaches the edit pipeline: one file argument, an edit task. -/
def pipelineEnv : Env :=
  { argv := ["a.ts"], models := [sonnetModel],
    preferredVerifierProvider := "openai", apiKeys := fun _ => true,
    processedCode := "code", processedCount := 1, estimatedTokens := 100,
    continueAnyway := false, task := "add a comment", rawStream := 7 }

/-- A run whose entered task is an `ask` question. -/
def askEnv : Env :=
  { argv := ["a.ts"], models := [sonnetModel],
    preferredVerifierProvider := "openai", apiKeys := fun _ => true,
    processedCode := "code", processedCount := 1, estimatedTokens := 100,
    continueAnyway := false, task := "Ask what does this do", rawStream := 7 }

/-- A run with the -p flag and no remaining file arguments. -/
def pOnlyEnv : Env :=
  { argv := ["-p"], models := [sonnetModel],
    preferredVerifierProvider := "openai", apiKeys := fun _ => true,
    processedCode := "code", processedCount := 0, estimatedTokens := 100,
    continueAnyway := false, task := "t", rawStream := 7 }

/-- A run with the -p flag and a file argument. -/
def pFileEnv : Env :=
  { argv := ["-p", "a.ts"], models := [sonnetModel],
    preferredVerifierProvider := "openai", apiKeys := fun _ => true,
    processedCode := "line-tagged text", processedCount := 1,
    estimatedTokens := 100, continueAnyway := false, task := "t",
    rawStream := 7 }

/-- A run invoked as `mandark revert`. -/
def revertEnv : Env :=
  { argv := ["revert"], models := [sonnetModel],
    preferredVerifierProvider := "openai", apiKeys := fun _ => true,
    processedCode := "code", processedCount := 0, estimatedTokens := 100,
    continueAnyway := false, task := "t", rawStream := 7 }

/-- A run with no arguments at all. -/
def noArgsEnv : Env :=
  { argv := [], models := [sonnetModel],
    preferredVerifierProvider := "openai", apiKeys := fun _ => true,
    processedCode := "code", processedCount := 0, estimatedTokens := 100,
    continueAnyway := false, task := "t", rawStream := 7 }

/-- The empty file system. -/
def emptyFS : FS := fun _ => none

/-- A three-line file system used in the apply/revert witness. -/
def witnessFS : FS :=
  fun q => if q = "a.txt" then some "l1\nl2\nl3" else none

/-- One replace packet over the witness file system. -/
def witnessPackets : List EditPacket :=
  [{ filePath := "a.txt", op := EditOp.replaceLines, startLine := 2,
     endLine := some 3, newContent := ["X"] }]

/-! ## Claim C8: context-window overflow check -/

/-- C8: `checkContextWindowOverflow` returns `overflow = true` exactly when
`inputTokens` exceeds `contextWindow - outputLength`; in that case
`overflowTokens` is `inputTokens - (contextWindow - outputLength)`, and
otherwise the result is `overflow = false` with no overflow fields. -/
theorem claim_C8 (inputTokens : Int) (m : Model) :
    ((checkContextWindowOverflow inputTokens m).overflow = true ↔
      inputTokens > m.contextWindow - m.outputLength)
    ∧ (inputTokens > m.contextWindow - m.outputLength →
      (checkContextWindowOverflow inputTokens m).overflowTokens =
        some (inputTokens - (m.contextWindow - m.outputLength)))
    ∧ (¬ inputTokens > m.contextWindow - m.outputLength →
      checkContextWindowOverflow inputTokens m =
        { overflow := false, overflowTokens := none,
          overflowPercentage := none }) := by
  unfold checkContextWindowOverflow
  by_cases h : inputTokens > m.contextWindow - m.outputLength <;> simp [h]

/-- Witness for C8 at concrete inputs: an overflowing and a fitting count. -/
theorem claim_C8_witness :
    ((checkContextWindowOverflow 300000 sonnetModel).overflow = true ↔
      (300000 : Int) > sonnetModel.contextWindow - sonnetModel.outputLength)
    ∧ (checkContextWindowOverflow 300000 sonnetModel).overflowTokens =
        some (300000 - (sonnetModel.contextWindow - sonnetModel.outputLength))
    ∧ checkContextWindowOverflow 100 sonnetModel =
        { overflow := false, overflowTokens := none,
          overflowPercentage := none } :=
  ⟨(claim_C8 300000 sonnetModel).1,
   (claim_C8 300000 sonnetModel).2.1 (by decide),
   (claim_C8 100 sonnetModel).2.2 (by decide)⟩

/-! ## Claim C9: model-nickname selection -/

/-- C9: when the last non-flag argument is the nickname of some entry of
`models`, that entry is selected and the argument is removed from the file
list; otherwise the first model is selected and the argument is kept as a
file path. -/
theorem claim_C9 (models : List Model) (rest : List String) (nick : String)
    (hne : nick ≠ "") :
    ((∃ m, m ∈ models ∧ m.nickName = nick) →
      ∃ m, m ∈ models ∧ m.nickName = nick ∧
        selectModel models (rest ++ [nick]) = (some m, rest))
    ∧ ((∀ m, m ∈ models → m.nickName ≠ nick) →
      selectModel models (rest ++ [nick]) = (models.head?, rest ++ [nick])) := by
  constructor
  · rintro ⟨m, hm, hnick⟩
    have hsome : (models.find? (fun m => m.nickName == nick)).isSome := by
      rw [List.find?_isSome]
      exact ⟨m, hm, by simp [hnick]⟩
    obtain ⟨m', hm'⟩ := Option.isSome_iff_exists.mp hsome
    refine ⟨m', List.mem_of_find?_eq_some hm', ?_, ?_⟩
    · have := List.find?_some hm'
      simpa using this
    · unfold selectModel
      rw [List.getLast?_concat]
      simp only [List.dropLast_concat]
      rw [hm']
  · intro hnone
    have hfind : models.find? (fun m => m.nickName == nick) = none := by
      rw [List.find?_eq_none]
      intro m hm
      simpa using hnone m hm
    unfold selectModel
    rw [List.getLast?_concat]
    simp only [List.dropLast_concat]
    rw [hfind]
    simp [hne]

/-- Witness for C9: both branches at concrete inputs. -/
theorem claim_C9_witness :
    (∃ m, m ∈ [sonnetModel] ∧ m.nickName = "sonnet35" ∧
      selectModel [sonnetModel] (["a.ts"] ++ ["sonnet35"]) = (some m, ["a.ts"]))
    ∧ selectModel [sonnetModel] (["a.ts"] ++ ["b.ts"]) =
        ([sonnetModel].head?, ["a.ts"] ++ ["b.ts"]) :=
  ⟨(claim_C9 [sonnetModel] ["a.ts"] "sonnet35" (by decide)).1
      ⟨sonnetModel, by simp, by decide⟩,
   (claim_C9 [sonnetModel] ["a.ts"] "b.ts" (by decide)).2
      (by intro m hm; simp at hm; subst hm; decide)⟩

/-! ## Helper lemmas about the main trace -/

/-- `checkAndSetAPIKey` performs at most one key prompt. -/
theorem checkAndSet_fst_cases (k : String → Bool) (p : String) :
    (checkAndSetAPIKey k p).1 = []
    ∨ (checkAndSetAPIKey k p).1 = [Effect.promptAPIKey p] := by
  unfold checkAndSetAPIKey
  split <;> simp

/-- After `checkAndSetAPIKey` the key for its provider is present. -/
theorem checkAndSet_snd_self (k : String → Bool) (p : String) :
    (checkAndSetAPIKey k p).2 p = true := by
  unfold checkAndSetAPIKey
  split <;> simp_all

/-- An `ask` task makes the task branch a pure answer stream. -/
theorem taskBranch_ask (env : Env) (sel : Model)
    (h : strStartsWith (lowerString env.task) "ask " = true) :
    taskBranch env sel = [Effect.askStream sel.provider] := by
  unfold taskBranch
  simp [h]

/-- The three possible shapes of the task branch. -/
theorem taskBranch_shape (env : Env) (sel : Model) :
    taskBranch env sel = [Effect.askStream sel.provider]
    ∨ taskBranch env sel =
        [Effect.editModelCall sel.provider env.rawStream,
         Effect.buildEditProcessor,
         Effect.verifyCall env.rawStream (verifierProviderOf env sel),
         Effect.applyCall (verifyEditStream env.rawStream (verifierProviderOf env sel))]
    ∨ taskBranch env sel = [Effect.errorUnsupportedProvider, Effect.exitCode 1] := by
  unfold taskBranch
  split_ifs <;> simp

/-- The possible shapes of a whole `main` trace. -/
theorem mainRun_shape (env : Env) :
    mainRun env = [Effect.revertCall]
    ∨ mainRun env = [Effect.errorNoFiles, Effect.exitCode 1]
    ∨ mainRun env =
        [Effect.processFilesCall (filesOf env) (env.argv.contains "-a"),
         Effect.writeCompiled env.processedCode, Effect.exitCode 0]
    ∨ mainRun env =
        [Effect.processFilesCall (filesOf env) (env.argv.contains "-a"),
         Effect.crash]
    ∨ ∃ sel, selectedOf env = some sel ∧
        (mainRun env =
            Effect.processFilesCall (filesOf env) (env.argv.contains "-a") ::
              ((checkAndSetAPIKey env.apiKeys sel.provider).1 ++ [Effect.exitCode 0])
         ∨ mainRun env =
            Effect.processFilesCall (filesOf env) (env.argv.contains "-a") ::
              ((checkAndSetAPIKey env.apiKeys sel.provider).1
                ++ [Effect.promptTask] ++ taskBranch env sel)) := by
  unfold mainRun
  by_cases h1 : env.argv.head? = some "revert"
  · rw [if_pos h1]
    exact Or.inl rfl
  · rw [if_neg h1]
    by_cases h2 : filesOf env = []
    · rw [if_pos h2]
      exact Or.inr (Or.inl rfl)
    · rw [if_neg h2]
      by_cases h3 : env.argv.contains "-p" = true
      · rw [if_pos h3]
        exact Or.inr (Or.inr (Or.inl rfl))
      · rw [if_neg h3]
        cases hsel : selectedOf env with
        | none => exact Or.inr (Or.inr (Or.inr (Or.inl rfl)))
        | some sel =>
          simp only [afterSelection]
          by_cases h5 :
              ((checkContextWindowOverflow env.estimatedTokens sel).overflow
                && !env.continueAnyway) = true
          · rw [if_pos h5]
            exact Or.inr (Or.inr (Or.inr (Or.inr ⟨sel, rfl, Or.inl rfl⟩)))
          · rw [if_neg h5]
            exact Or.inr (Or.inr (Or.inr (Or.inr ⟨sel, rfl, Or.inr rfl⟩)))

/-- The provider handed to the verifier equals the preferred verifier
provider exactly when that provider's key is present after setup, and falls
back to the selected model's provider otherwise. -/
theorem verifierProvider_spec (env : Env) (sel : Model)
    (hsel : selectedOf env = some sel) :
    (verifierProviderOf env sel = env.preferredVerifierProvider ↔
      keysAfterSetup env env.preferredVerifierProvider = true)
    ∧ (keysAfterSetup env env.preferredVerifierProvider = false →
      verifierProviderOf env sel = sel.provider) := by
  have hself : keysAfterSetup env sel.provider = true := by
    unfold keysAfterSetup
    rw [hsel]
    exact checkAndSet_snd_self env.apiKeys sel.provider
  unfold verifierProviderOf
  cases hk : keysAfterSetup env env.preferredVerifierProvider with
  | true =>
    rw [if_pos rfl]
    simp
  | false =>
    rw [if_neg (by simp)]
    refine ⟨⟨fun heq => ?_, fun ht => ?_⟩, fun _ => rfl⟩
    · rw [heq] at hself
      rw [hself] at hk
      cases hk
    · cases ht
  -- the goal after `cases hk` replaces the key lookup by the scrutinee value

/-- C3: whenever the pipeline verifies a stream, the verification provider
is the preferred verifier model's provider exactly when an API key for it is
present (after the selected model's key was set up); otherwise the run
silently falls back to the selected model's provider. -/
theorem claim_C3 (env : Env) (s : Nat) (p : String)
    (h : Effect.verifyCall s p ∈ mainRun env) :
    (p = env.preferredVerifierProvider ↔
      keysAfterSetup env env.preferredVerifierProvider = true)
    ∧ (keysAfterSetup env env.preferredVerifierProvider = false →
      ∃ sel, selectedOf env = some sel ∧ p = sel.provider) := by
  rcases mainRun_shape env with hs | hs | hs | hs | ⟨sel, hsel, hs | hs⟩
  · rw [hs] at h; simp at h
  · rw [hs] at h; simp at h
  · rw [hs] at h; simp at h
  · rw [hs] at h; simp at h
  · rcases checkAndSet_fst_cases env.apiKeys sel.provider with hc | hc <;>
      rw [hs, hc] at h <;> simp at h
  · rcases taskBranch_shape env sel with ht | ht | ht
    · rcases checkAndSet_fst_cases env.apiKeys sel.provider with hc | hc <;>
        rw [hs, hc, ht] at h <;> simp at h
    · rw [ht] at hs
      rw [hs] at h
      have hp : p = verifierProviderOf env sel := by
        rcases checkAndSet_fst_cases env.apiKeys sel.provider with hc | hc <;>
          rw [hc] at h <;> simp at h <;> exact h.2
      subst hp
      have hspec := verifierProvider_spec env sel hsel
      exact ⟨hspec.1, fun hk => ⟨sel, hsel, hspec.2 hk⟩⟩
    · rcases checkAndSet_fst_cases env.apiKeys sel.provider with hc | hc <;>
        rw [hs, hc, ht] at h <;> simp at h

/-- C2: every stream handed to the applier is the output of the verifier
over the model's raw packet stream, and the verification call precedes the
apply call in the trace. -/
theorem claim_C2 (env : Env) (vs : VerifiedStream)
    (h : Effect.applyCall vs ∈ mainRun env) :
    ∃ p, vs = verifyEditStream env.rawStream p
      ∧ ∃ l₁ l₂,
          mainRun env = l₁ ++ Effect.verifyCall env.rawStream p :: l₂
          ∧ Effect.applyCall vs ∈ l₂ := by
  rcases mainRun_shape env with hs | hs | hs | hs | ⟨sel, hsel, hs | hs⟩
  · rw [hs] at h; simp at h
  · rw [hs] at h; simp at h
  · rw [hs] at h; simp at h
  · rw [hs] at h; simp at h
  · rcases checkAndSet_fst_cases env.apiKeys sel.provider with hc | hc <;>
      rw [hs, hc] at h <;> simp at h
  · rcases taskBranch_shape env sel with ht | ht | ht
    · rcases checkAndSet_fst_cases env.apiKeys sel.provider with hc | hc <;>
        rw [hs, hc, ht] at h <;> simp at h
    · rw [ht] at hs
      rw [hs] at h
      have hvs : vs = verifyEditStream env.rawStream (verifierProviderOf env sel) := by
        rcases checkAndSet_fst_cases env.apiKeys sel.provider with hc | hc <;>
          rw [hc] at h <;> simp at h <;> simpa [verifyEditStream] using h
      refine ⟨verifierProviderOf env sel, hvs,
        Effect.processFilesCall (filesOf env) (env.argv.contains "-a") ::
          ((checkAndSetAPIKey env.apiKeys sel.provider).1
            ++ [Effect.promptTask,
                Effect.editModelCall sel.provider env.rawStream,
                Effect.buildEditProcessor]),
        [Effect.applyCall (verifyEditStream env.rawStream (verifierProviderOf env sel))],
        ?_, ?_⟩
      · rw [hs]
        simp
      · simp [hvs]
    · rcases checkAndSet_fst_cases env.apiKeys sel.provider with hc | hc <;>
        rw [hs, hc, ht] at h <;> simp at h

/-- C10: once a task starting with "ask " (case-insensitively) has been
entered at the prompt, the run streams an answer and performs no provider
edit call, no verification, no apply to disk, and no compiled-code write. -/
theorem claim_C10 (env : Env)
    (hprompt : Effect.promptTask ∈ mainRun env)
    (hask : strStartsWith (lowerString env.task) "ask " = true) :
    (∃ p, Effect.askStream p ∈ mainRun env)
    ∧ (∀ s p, Effect.verifyCall s p ∉ mainRun env)
    ∧ (∀ vs, Effect.applyCall vs ∉ mainRun env)
    ∧ (∀ p s, Effect.editModelCall p s ∉ mainRun env)
    ∧ Effect.buildEditProcessor ∉ mainRun env
    ∧ (∀ s, Effect.writeCompiled s ∉ mainRun env) := by
  rcases mainRun_shape env with hs | hs | hs | hs | ⟨sel, hsel, hs | hs⟩
  · rw [hs] at hprompt; simp at hprompt
  · rw [hs] at hprompt; simp at hprompt
  · rw [hs] at hprompt; simp at hprompt
  · rw [hs] at hprompt; simp at hprompt
  · rcases checkAndSet_fst_cases env.apiKeys sel.provider with hc | hc <;>
      rw [hs, hc] at hprompt <;> simp at hprompt
  · rw [taskBranch_ask env sel hask] at hs
    rcases checkAndSet_fst_cases env.apiKeys sel.provider with hc | hc <;>
      rw [hc] at hs <;> rw [hs] <;>
      exact ⟨⟨sel.provider, by simp⟩, by simp, by simp, by simp, by simp, by simp⟩

/-- Witness for C10: the concrete `ask` run neither verifies nor applies. -/
theorem claim_C10_witness :
    Effect.askStream "anthropic" ∈ mainRun askEnv
    ∧ Effect.applyCall (verifyEditStream 7 "openai") ∉ mainRun askEnv
    ∧ Effect.verifyCall 7 "openai" ∉ mainRun askEnv :=
  ⟨by decide,
   (claim_C10 askEnv (by decide) (by decide)).2.2.1 (verifyEditStream 7 "openai"),
   (claim_C10 askEnv (by decide) (by decide)).2.1 7 "openai"⟩

/-- Witness for C2: the concrete pipeline run applies exactly the verified
stream, after the verification call. -/
theorem claim_C2_witness :
    Effect.applyCall (verifyEditStream 7 "openai") ∈ mainRun pipelineEnv
    ∧ ∃ p, verifyEditStream 7 "openai" = verifyEditStream pipelineEnv.rawStream p
        ∧ ∃ l₁ l₂,
            mainRun pipelineEnv = l₁ ++ Effect.verifyCall pipelineEnv.rawStream p :: l₂
            ∧ Effect.applyCall (verifyEditStream 7 "openai") ∈ l₂ :=
  ⟨by decide, claim_C2 pipelineEnv (verifyEditStream 7 "openai") (by decide)⟩

/-- Witness for C3: in the concrete pipeline run the verifier provider is
the preferred one, whose key is present. -/
theorem claim_C3_witness :
    ("openai" = pipelineEnv.preferredVerifierProvider ↔
      keysAfterSetup pipelineEnv pipelineEnv.preferredVerifierProvider = true)
    ∧ (keysAfterSetup pipelineEnv pipelineEnv.preferredVerifierProvider = false →
      ∃ sel, selectedOf pipelineEnv = some sel ∧ "openai" = sel.provider) :=
  claim_C3 pipelineEnv 7 "openai" (by decide)

/-- An argv whose head is "revert" makes the filtered file list nonempty
(given no model is nicknamed "revert"). -/
theorem revertHead_files_ne (env : Env)
    (hrev : "revert" ∉ env.models.map Model.nickName)
    (hh : env.argv.head? = some "revert") :
    filesOf env ≠ [] := by
  cases henv : env.argv with
  | nil => rw [henv] at hh; simp at hh
  | cons a t =>
    rw [henv] at hh
    simp at hh
    subst hh
    intro hempty
    unfold filesOf at hempty
    have hfi : filteredInputs env.argv = "revert" :: filteredInputs t := by
      rw [henv]
      unfold filteredInputs
      rw [List.filter_cons_of_pos (by decide)]
    rw [hfi] at hempty
    unfold selectModel at hempty
    cases hl : ("revert" :: filteredInputs t).getLast? with
    | none => simp at hl
    | some nick =>
      rw [hl] at hempty
      dsimp only at hempty
      cases hf : env.models.find? (fun m => m.nickName == nick) with
      | some m =>
        rw [hf] at hempty
        dsimp only at hempty
        cases hft : filteredInputs t with
        | nil =>
          rw [hft] at hl
          simp at hl
          have hmem := List.mem_of_find?_eq_some hf
          have hbeq : m.nickName = nick := by simpa using List.find?_some hf
          refine hrev (List.mem_map.mpr ⟨m, hmem, ?_⟩)
          rw [hbeq, ← hl]
        | cons b u =>
          rw [hft] at hempty
          simp [List.dropLast] at hempty
      | none =>
        rw [hf] at hempty
        dsimp only at hempty
        have hnickmem : nick ∈ filteredInputs env.argv := by
          rw [hfi]
          exact List.mem_of_getLast?_eq_some hl
        have hnick : nick ≠ "" := by
          unfold filteredInputs at hnickmem
          have hp := (List.mem_filter.mp hnickmem).2
          simp at hp
          exact hp.2
        rw [if_pos hnick] at hempty
        simp at hempty

/-- C5: when no file or folder argument remains after flag filtering and
nickname removal, the run reports the error and exits with code 1, reading
no files and calling no model. -/
theorem claim_C5 (env : Env)
    (hrev : "revert" ∉ env.models.map Model.nickName)
    (hempty : filesOf env = []) :
    mainRun env = [Effect.errorNoFiles, Effect.exitCode 1] := by
  have hh : ¬env.argv.head? = some "revert" :=
    fun hh => revertHead_files_ne env hrev hh hempty
  unfold mainRun
  rw [if_neg hh, if_pos hempty]

/-- Witness for C5: a run with no arguments at all. -/
theorem claim_C5_witness :
    "revert" ∉ noArgsEnv.models.map Model.nickName
    ∧ filesOf noArgsEnv = []
    ∧ mainRun noArgsEnv = [Effect.errorNoFiles, Effect.exitCode 1] :=
  ⟨by decide, by decide, claim_C5 noArgsEnv (by decide) (by decide)⟩

/-- C6 counterexample: with argv = ["-p"], the -p flag is present but the
run exits with code 1 and never writes compiled-code.txt, because the
no-files check precedes the -p branch. -/
theorem claim_C6_counterexample :
    "-p" ∈ pOnlyEnv.argv
    ∧ mainRun pOnlyEnv = [Effect.errorNoFiles, Effect.exitCode 1]
    ∧ Effect.writeCompiled pOnlyEnv.processedCode ∉ mainRun pOnlyEnv
    ∧ Effect.exitCode 0 ∉ mainRun pOnlyEnv := by
  refine ⟨?_, ?_, ?_, ?_⟩ <;> decide

/-- C6 (amended): when -p is present, the first argument is not "revert",
and at least one file argument remains, the run writes the compiled text
verbatim to compiled-code.txt and exits 0, with no task prompt, no model
call, and no edit application. -/
theorem claim_C6_amended (env : Env)
    (hp : env.argv.contains "-p" = true)
    (hrev : env.argv.head? ≠ some "revert")
    (hfiles : filesOf env ≠ []) :
    mainRun env =
      [Effect.processFilesCall (filesOf env) (env.argv.contains "-a"),
       Effect.writeCompiled env.processedCode, Effect.exitCode 0] := by
  unfold mainRun
  rw [if_neg hrev, if_neg hfiles, if_pos hp]

/-- Witness for the amended C6: argv = ["-p", "a.ts"]. -/
theorem claim_C6_amended_witness :
    pFileEnv.argv.contains "-p" = true
    ∧ filesOf pFileEnv ≠ []
    ∧ mainRun pFileEnv =
        [Effect.processFilesCall (filesOf pFileEnv) (pFileEnv.argv.contains "-a"),
         Effect.writeCompiled pFileEnv.processedCode, Effect.exitCode 0] :=
  ⟨by decide, by decide,
   claim_C6_amended pFileEnv (by decide) (by decide) (by decide)⟩

/-- C4: invoked as `revert`, the program performs only the history-store
revert and returns — no file compilation, no model call, no edit
application; and reverting with no recorded run is a reported no-op that
leaves the file system untouched. -/
theorem claim_C4 (env : Env) (fs : FS)
    (h : env.argv.head? = some "revert") :
    mainRun env = [Effect.revertCall]
    ∧ revertLastChanges none fs = (RevertResult.noOpReported, fs) := by
  refine ⟨?_, rfl⟩
  unfold mainRun
  rw [if_pos h]

/-- Witness for C4 at the concrete revert invocation. -/
theorem claim_C4_witness :
    mainRun revertEnv = [Effect.revertCall]
    ∧ revertLastChanges none emptyFS = (RevertResult.noOpReported, emptyFS) :=
  claim_C4 revertEnv emptyFS (by decide)

/-! ## Apply / revert round trip (claim C1) -/

/-- The initial state of a run satisfies the history invariant. -/
theorem histOk_init (fs0 : FS) :
    HistOk fs0 { fs := fs0, hist := [], applied := 0, failed := 0 } := by
  constructor
  · intro q c hq
    simp [List.lookup] at hq
  · intro q _
    rfl

/-- Applying one packet preserves the history invariant. -/
theorem histOk_applyPacket (fs0 : FS) (st : ApplyState) (p : EditPacket)
    (h : HistOk fs0 st) : HistOk fs0 (applyPacket st p) := by
  unfold applyPacket
  cases hc : st.fs p.filePath with
  | none => exact h
  | some content =>
    dsimp only
    by_cases hcap : (st.hist.lookup p.filePath).isSome = true
    · rw [if_pos hcap]
      refine ⟨h.1, ?_⟩
      intro q hq
      dsimp only at hq
      have hqne : ¬q = p.filePath := by
        intro he
        rw [← he] at hcap
        rw [hq] at hcap
        simp at hcap
      show (if q = p.filePath then _ else st.fs q) = fs0 q
      rw [if_neg hqne]
      exact h.2 q hq
    · rw [if_neg hcap]
      refine ⟨?_, ?_⟩
      · intro q c hq
        show fs0 q = some c
        rw [List.lookup_append] at hq
        cases hql : st.hist.lookup q with
        | some c2 =>
          rw [hql] at hq
          simp at hq
          exact hq ▸ h.1 q c2 hql
        | none =>
          rw [hql] at hq
          simp at hq
          by_cases hqe : (q == p.filePath) = true
          · have hqeq : q = p.filePath := by simpa using hqe
            have hcv : c = content := by
              simp [List.lookup, hqe] at hq
              exact hq.symm
            have hfs : st.fs q = fs0 q := h.2 q hql
            rw [← hfs, hqeq, hc, hcv]
          · simp [List.lookup, hqe] at hq
      · intro q hq
        show (if q = p.filePath then _ else st.fs q) = fs0 q
        rw [List.lookup_append] at hq
        cases hql : st.hist.lookup q with
        | some c2 =>
          rw [hql] at hq
          simp at hq
        | none =>
          rw [hql] at hq
          simp at hq
          have hqne : ¬q = p.filePath := by
            intro he
            rw [he] at hq
            simp [List.lookup] at hq
          rw [if_neg hqne]
          exact h.2 q hql

/-- Folding the applier over any packet list preserves the invariant. -/
theorem histOk_foldl (fs0 : FS) (ps : List EditPacket) (st : ApplyState)
    (h : HistOk fs0 st) : HistOk fs0 (ps.foldl applyPacket st) := by
  induction ps generalizing st with
  | nil => exact h
  | cons p t ih => exact ih _ (histOk_applyPacket fs0 st p h)

/-- C1: after an apply run with no ApplyError, reverting from the recorded
history entry restores every file byte-for-byte to its pre-run content. -/
theorem claim_C1 (fs0 : FS) (ps : List EditPacket) (ts : Nat) (path : String)
    (hok : (applyRun fs0 ps).failed = 0) :
    (revertLastChanges
        (some { timestamp := ts, affectedFiles := (applyRun fs0 ps).hist })
        (applyRun fs0 ps).fs).2 path = fs0 path := by
  have h : HistOk fs0 (applyRun fs0 ps) :=
    histOk_foldl fs0 (orderForApply ps) _ (histOk_init fs0)
  unfold revertLastChanges
  dsimp only
  unfold revertFiles
  cases hl : (applyRun fs0 ps).hist.lookup path with
  | some c => exact (h.1 path c hl).symm
  | none => exact h.2 path hl

/-- Witness for C1: a concrete error-free run edits the file and revert
restores the original text exactly. -/
theorem claim_C1_witness :
    (applyRun witnessFS witnessPackets).failed = 0
    ∧ (applyRun witnessFS witnessPackets).fs "a.txt" = some "l1\nX"
    ∧ (revertLastChanges
        (some { timestamp := 0,
                affectedFiles := (applyRun witnessFS witnessPackets).hist })
        (applyRun witnessFS witnessPackets).fs).2 "a.txt"
      = witnessFS "a.txt" :=
  ⟨by decide, by decide, claim_C1 witnessFS witnessPackets 0 "a.txt" (by decide)⟩

/-! ## Normalizer chunking invariance (claim C7) -/

/-- Scanning from any accumulator only appends to the records already
emitted; the pending text evolves independently of them. -/
theorem foldl_normStep_shift (frag : List Char)
    (acc : List (List Char) × List Char) :
    frag.foldl normStep acc =
      (acc.1 ++ (frag.foldl normStep ([], acc.2)).1,
       (frag.foldl normStep ([], acc.2)).2) := by
  induction frag generalizing acc with
  | nil => simp
  | cons c cs ih =>
    simp only [List.foldl_cons]
    by_cases hc : c = recordEnd
    · rw [show normStep acc c = (acc.1 ++ [acc.2], []) from by
        unfold normStep; rw [if_pos hc]]
      rw [show normStep ([], acc.2) c = ([acc.2], []) from by
        unfold normStep; rw [if_pos hc]; rfl]
      rw [ih (acc.1 ++ [acc.2], []), ih ([acc.2], [])]
      simp [List.append_assoc]
    · rw [show normStep acc c = (acc.1, acc.2 ++ [c]) from by
        unfold normStep; rw [if_neg hc]]
      rw [show normStep ([], acc.2) c = ([], acc.2 ++ [c]) from by
        unfold normStep; rw [if_neg hc]]
      exact ih (acc.1, acc.2 ++ [c])

/-- Feeding a concatenation equals feeding the parts in sequence. -/
theorem feedFragment_append (pending a b : List Char) :
    feedFragment pending (a ++ b) =
      ((feedFragment pending a).1
        ++ (feedFragment (feedFragment pending a).2 b).1,
       (feedFragment (feedFragment pending a).2 b).2) := by
  unfold feedFragment
  rw [List.foldl_append]
  rw [foldl_normStep_shift b (a.foldl normStep ([], pending))]

/-- Chunking invariance: running the normalizer over any fragmentation is
the same as feeding the whole stream at once. -/
theorem runNormalizer_eq_single (frags : List (List Char)) :
    runNormalizer frags = feedFragment [] frags.flatten := by
  suffices h : ∀ acc : List (List Char) × List Char,
      frags.foldl
        (fun acc frag =>
          let out := feedFragment acc.2 frag
          (acc.1 ++ out.1, out.2)) acc
      = (acc.1 ++ (feedFragment acc.2 frags.flatten).1,
         (feedFragment acc.2 frags.flatten).2) by
    unfold runNormalizer
    rw [h ([], [])]
    simp
  intro acc
  induction frags generalizing acc with
  | nil => simp [feedFragment]
  | cons f fs ih =>
    simp only [List.foldl_cons, List.flatten_cons]
    rw [ih]
    rw [feedFragment_append acc.2 f fs.flatten]
    simp [List.append_assoc]

/-- On a list of records that all parse, `filterMap` keeps every record. -/
theorem length_filterMap_all_isSome
    (f : List Char → Option (EditOp × Nat)) (l : List (List Char))
    (h : ∀ r ∈ l, (f r).isSome = true) :
    (l.filterMap f).length = l.length := by
  induction l with
  | nil => rfl
  | cons r t ih =>
    have hr := h r (by simp)
    cases hf : f r with
    | none => rw [hf] at hr; simp at hr
    | some v =>
      simp [List.filterMap_cons, hf,
        ih (fun x hx => h x (List.mem_cons_of_mem _ hx))]

/-- C7: for a well-formed stream (every complete record parses), the number
of packets the normalizer emits equals the number of complete records of the
whole stream, for every fragmentation of that stream. -/
theorem claim_C7 (frags : List (List Char))
    (hwf : ∀ r ∈ completeRecords frags.flatten, (parseRecord r).isSome = true) :
    (normalizeStream frags).1.length = (completeRecords frags.flatten).length := by
  unfold normalizeStream
  dsimp only
  rw [show (runNormalizer frags).1 = completeRecords frags.flatten from by
    rw [runNormalizer_eq_single]; rfl]
  exact length_filterMap_all_isSome parseRecord _ hwf

/-- Witness for C7: a two-record stream split mid-record still emits exactly
the two records. -/
theorem claim_C7_witness :
    (normalizeStream ["r1".toList, "2\x1ei3\x1e".toList]).1.length =
      (completeRecords
        (["r1".toList, "2\x1ei3\x1e".toList] : List (List Char)).flatten).length
    ∧ (normalizeStream ["r1".toList, "2\x1ei3\x1e".toList]).1.length = 2 :=
  ⟨claim_C7 ["r1".toList, "2\x1ei3\x1e".toList] (by decide), by decide⟩
